import Mathlib

/-!
Verification of the generate → judge → revise control loop of `src/main.py`.

The program drafts a children's story, has a "judge" rate it, and revises it in a
bounded loop.  The external text-generation service (`chat`, lines 17-25) is a
free-form text oracle with no format guarantee; we model it by an `Oracle`
supplying the raw response of each call, indexed by call order.  Everything the
program computes from those responses is embedded below:

* `Json`, `jsonLoads`     — values of Python's `json` module and `json.loads`
                            (lines 2, 76).  Numbers are modelled as exact
                            rationals built with `mkRat`; the non-standard
                            `NaN`/`Infinity` literals accepted by Python's
                            `json.loads`, and lone UTF-16 surrogates in `\u`
                            escapes, are outside the modelled fragment (the
                            parser rejects them), as no rational represents
                            them; all inputs appearing in the program and the
                            claims are finite decimals.
* `reSearchBrace`         — `re.search(r"\x7b.*\x7d", raw, re.DOTALL)`
                            (line 73): the leftmost match of a greedy
                            dot-all pattern, i.e. the span from the first
                            brace-open that is followed by some brace-close,
                            to the last brace-close of the string.
* `judge_extract`         — the pure part of `judge_story` (lines 73-78):
                            span extraction, `json.loads`, and the `assert`
                            of the three required keys.  The `chat` call of
                            line 72 is abstracted into the `raw` argument.
* `pyFloat`, `acceptance` — `float(result.get("overall_score", 0))` and the
                            test of line 105.  `float` of a numeric string is
                            modelled for finite decimal literals; `inf`/`nan`
                            and underscore-grouped literals are outside the
                            modelled fragment.
* `revisionFeedback`      — the `feedback` dict built by `revise_story`
                            (lines 81-88).
* `gwjAux`, `generate_with_judge`, `judgeCallsAux`, `reviseCallsAux`
                          — the loop controller (lines 100-109) and the
                            number of judge / revise service calls it makes.
-/

/-- Values of Python's `json` module: `None`, `bool`, numbers (modelled as exact
rationals), strings, lists and dicts.  A dict is kept as the list of key/value
pairs in parse order; as in Python, a later duplicate key shadows an earlier
one (`lookupLast`). -/
inductive Json where
  | null : Json
  | bool : Bool → Json
  | num : Rat → Json
  | str : String → Json
  | arr : List Json → Json
  | obj : List (String × Json) → Json

/-- Lookup of a key in a dict's pair list, the last binding winning, matching
Python dict construction where later duplicate keys overwrite earlier ones. -/
def lookupLast : List (String × Json) → String → Option Json
  | [], _ => none
  | p :: rest, k =>
    match lookupLast rest k with
    | some v => some v
    | none => if p.1 = k then some p.2 else none

/-- Python's `d.get(k)` (default `None` is rendered as `Option`): `some` the
stored value on a dict that has the key, `none` otherwise. -/
def jGet : Json → String → Option Json
  | Json.obj l, k => lookupLast l k
  | _, _ => none

/-- Python's `d.get(k, default)`. -/
def jGetD (j : Json) (k : String) (d : Json) : Json :=
  (jGet j k).getD d

/-- Python's `k in d` on a dict (`False` on any non-dict, a case the program
never reaches since every parsed span starts with a brace-open). -/
def hasKey (j : Json) (k : String) : Bool :=
  match j with
  | Json.obj l => l.any fun p => p.1 = k
  | _ => false

/-- Python truthiness of a json value: `None`, `False`, `0`, `""`, `[]` and
an empty dict are falsy, everything else is truthy. -/
def pyTruthy : Json → Bool
  | Json.null => false
  | Json.bool b => b
  | Json.num q => !(decide (q = 0))
  | Json.str s => !(decide (s = ""))
  | Json.arr l => !l.isEmpty
  | Json.obj l => !l.isEmpty

/-- Truthiness of the result of a `.get` with no default: `None` (absent key)
is falsy. -/
def optTruthy : Option Json → Bool
  | none => false
  | some j => pyTruthy j

/-- JSON whitespace (the four characters skipped by Python's json scanner). -/
def isJsonWs (c : Char) : Bool :=
  c = ' ' || c = '\t' || c = '\n' || c = '\r'

/-- Drop leading JSON whitespace. -/
def skipWs : List Char → List Char
  | [] => []
  | c :: cs => if isJsonWs c then skipWs cs else c :: cs

/-- Value of a hexadecimal digit. -/
def hexVal (c : Char) : Option Nat :=
  if 48 ≤ c.toNat ∧ c.toNat ≤ 57 then some (c.toNat - 48)
  else if 97 ≤ c.toNat ∧ c.toNat ≤ 102 then some (c.toNat - 97 + 10)
  else if 65 ≤ c.toNat ∧ c.toNat ≤ 70 then some (c.toNat - 65 + 10)
  else none

/-- Value of a decimal digit. -/
def digitVal (c : Char) : Option Nat :=
  if 48 ≤ c.toNat ∧ c.toNat ≤ 57 then some (c.toNat - 48) else none

/-- Split a maximal run of decimal digits off the front of the input. -/
def takeDigits : List Char → List Nat × List Char
  | [] => ([], [])
  | c :: cs =>
    match digitVal c with
    | some d =>
      let p := takeDigits cs
      (d :: p.1, p.2)
    | none => ([], c :: cs)

/-- Numeric value of a digit list, most significant first. -/
def digitsToNat (acc : Nat) : List Nat → Nat
  | [] => acc
  | d :: ds => digitsToNat (acc * 10 + d) ds

/-- Body of a JSON string after the opening quote: returns the decoded
characters and the input after the closing quote.  Handles the standard
escapes and `\u` with surrogate-pair combination; raw control characters are
rejected as in Python's strict (default) mode.  Fuel decreases at every
consumed character. -/
def parseStringBody : Nat → List Char → Option (List Char × List Char)
  | 0, _ => none
  | _ + 1, [] => none
  | fuel + 1, c :: cs =>
    if c = '"' then some ([], cs)
    else if c = '\\' then
      match cs with
      | [] => none
      | e :: cs2 =>
        let simpleEsc : Option Char :=
          if e = '"' then some '"'
          else if e = '\\' then some '\\'
          else if e = '/' then some '/'
          else if e = 'b' then some (Char.ofNat 8)
          else if e = 'f' then some (Char.ofNat 12)
          else if e = 'n' then some '\n'
          else if e = 'r' then some '\r'
          else if e = 't' then some '\t'
          else none
        match simpleEsc with
        | some ch =>
          (parseStringBody fuel cs2).map fun p => (ch :: p.1, p.2)
        | none =>
          if e = 'u' then
            match cs2 with
            | h1 :: h2 :: h3 :: h4 :: cs3 =>
              match hexVal h1, hexVal h2, hexVal h3, hexVal h4 with
              | some a, some b, some c2, some d =>
                let n := ((a * 16 + b) * 16 + c2) * 16 + d
                if 55296 ≤ n ∧ n ≤ 56319 then
                  match cs3 with
                  | '\\' :: 'u' :: g1 :: g2 :: g3 :: g4 :: cs4 =>
                    match hexVal g1, hexVal g2, hexVal g3, hexVal g4 with
                    | some a2, some b2, some c3, some d2 =>
                      let m := ((a2 * 16 + b2) * 16 + c3) * 16 + d2
                      if 56320 ≤ m ∧ m ≤ 57343 then
                        let code := 65536 + (n - 55296) * 1024 + (m - 56320)
                        (parseStringBody fuel cs4).map fun p =>
                          (Char.ofNat code :: p.1, p.2)
                      else none
                    | _, _, _, _ => none
                  | _ => none
                else if 56320 ≤ n ∧ n ≤ 57343 then none
                else
                  (parseStringBody fuel cs3).map fun p => (Char.ofNat n :: p.1, p.2)
              | _, _, _, _ => none
            | _ => none
          else none
    else if c.toNat < 32 then none
    else (parseStringBody fuel cs).map fun p => (c :: p.1, p.2)

/-- A JSON number: optional minus sign, an integer part (a lone `0` or a
nonzero leading digit), an optional fraction, an optional exponent.  The value
is assembled with `mkRat` from integer arithmetic only. -/
def parseNumber (cs : List Char) : Option (Rat × List Char) :=
  let sp : Bool × List Char :=
    match cs with
    | '-' :: rest => (true, rest)
    | _ => (false, cs)
  match sp.2 with
  | [] => none
  | c :: rest =>
    match digitVal c with
    | none => none
    | some d0 =>
      let ip : List Nat × List Char :=
        if d0 = 0 then ([0], rest)
        else
          let p := takeDigits rest
          (d0 :: p.1, p.2)
      let fracStep : Option (List Nat × List Char) :=
        match ip.2 with
        | '.' :: r =>
          let p := takeDigits r
          if p.1.isEmpty then none else some (p.1, p.2)
        | _ => some ([], ip.2)
      match fracStep with
      | none => none
      | some fp =>
        let expStep : Option (Int × List Char) :=
          match fp.2 with
          | 'e' :: r | 'E' :: r =>
            let esp : Int × List Char :=
              match r with
              | '+' :: r2 => (1, r2)
              | '-' :: r2 => (-1, r2)
              | _ => (1, r)
            let p := takeDigits esp.2
            if p.1.isEmpty then none
            else some (esp.1 * (digitsToNat 0 p.1 : Int), p.2)
          | _ => some (0, fp.2)
        match expStep with
        | none => none
        | some ep =>
          let m : Nat := digitsToNat 0 (ip.1 ++ fp.1)
          let sm : Int := if sp.1 then -(m : Int) else (m : Int)
          let eEff : Int := ep.1 - (fp.1.length : Int)
          let q : Rat :=
            if 0 ≤ eEff then mkRat (sm * (10 : Int) ^ eEff.toNat) 1
            else mkRat sm ((10 : Nat) ^ (-eEff).toNat)
          some (q, ep.2)

mutual

/-- A JSON value: leading whitespace, then a string, object, array, keyword or
number, as in Python's json scanner.  Fuel only mediates the mutual recursion;
`jsonLoads` supplies enough of it that it never runs out on any input. -/
def parseValue : Nat → List Char → Option (Json × List Char)
  | 0, _ => none
  | fuel + 1, cs =>
    match skipWs cs with
    | [] => none
    | c :: rest =>
      if c = '"' then
        (parseStringBody (rest.length + 1) rest).map fun p =>
          (Json.str (String.mk p.1), p.2)
      else if c = '{' then
        match skipWs rest with
        | '}' :: r2 => some (Json.obj [], r2)
        | _ => parseMembers fuel rest []
      else if c = '[' then
        match skipWs rest with
        | ']' :: r2 => some (Json.arr [], r2)
        | _ => parseElements fuel rest []
      else if c = 't' then
        match rest with
        | 'r' :: 'u' :: 'e' :: r => some (Json.bool true, r)
        | _ => none
      else if c = 'f' then
        match rest with
        | 'a' :: 'l' :: 's' :: 'e' :: r => some (Json.bool false, r)
        | _ => none
      else if c = 'n' then
        match rest with
        | 'u' :: 'l' :: 'l' :: r => some (Json.null, r)
        | _ => none
      else
        (parseNumber (c :: rest)).map fun p => (Json.num p.1, p.2)

/-- Members of a JSON object after the opening brace (nonempty case):
`"key" : value` pairs separated by commas, closed by a brace-close. -/
def parseMembers : Nat → List Char → List (String × Json) →
    Option (Json × List Char)
  | 0, _, _ => none
  | fuel + 1, cs, acc =>
    match skipWs cs with
    | '"' :: r =>
      match parseStringBody (r.length + 1) r with
      | none => none
      | some kp =>
        match skipWs kp.2 with
        | ':' :: r3 =>
          match parseValue fuel r3 with
          | none => none
          | some vp =>
            let acc2 := acc ++ [(String.mk kp.1, vp.1)]
            match skipWs vp.2 with
            | ',' :: r5 => parseMembers fuel r5 acc2
            | '}' :: r5 => some (Json.obj acc2, r5)
            | _ => none
        | _ => none
    | _ => none

/-- Elements of a JSON array after the opening bracket (nonempty case). -/
def parseElements : Nat → List Char → List Json → Option (Json × List Char)
  | 0, _, _ => none
  | fuel + 1, cs, acc =>
    match parseValue fuel cs with
    | none => none
    | some vp =>
      let acc2 := acc ++ [vp.1]
      match skipWs vp.2 with
      | ',' :: r2 => parseElements fuel r2 acc2
      | ']' :: r2 => some (Json.arr acc2, r2)
      | _ => none

end

/-- Python's `json.loads`: parse one value and require that only whitespace
follows (otherwise Python raises `Extra data`).  The fuel `2 * length + 2`
strictly dominates the recursion depth, since at least one character is
consumed for every two fuel ticks. -/
def jsonLoads (s : String) : Option Json :=
  match parseValue (2 * s.length + 2) s.toList with
  | none => none
  | some p => if (skipWs p.2).isEmpty then some p.1 else none

/-- Prefix of the input ending at its last brace-close, or `none` if the input
has no brace-close.  This is how the greedy `.*` of the pattern of line 73
backtracks: it gives up characters from the end until a brace-close. -/
def takeToLastClose : List Char → Option (List Char)
  | [] => none
  | c :: cs =>
    match takeToLastClose cs with
    | some body => some (c :: body)
    | none => if c = '}' then some [c] else none

/-- Model of `re.search(r"\x7b.*\x7d", raw, re.DOTALL)` (line 73): try each
position left to right; at a brace-open, the greedy dot-all `.*` reaches to
the last brace-close of the remaining input; if the remaining input has no
brace-close the match at this position fails and the search moves on. -/
def reSearchBrace : List Char → Option (List Char)
  | [] => none
  | c :: cs =>
    if c = '{' then
      match takeToLastClose cs with
      | some body => some (c :: body)
      | none => reSearchBrace cs
    else reSearchBrace cs

/-- Exceptions the judge-parsing code of lines 73-78 can raise.  Only the
`ValueError` of line 75 carries an excerpt of the raw response; the
`json.JSONDecodeError` of line 76 reports positions only, and the bare
`assert` of line 77 carries nothing. -/
inductive JudgeError where
  | noJson : String → JudgeError
  | decodeError : JudgeError
  | assertFailed : JudgeError

/-- The raw-response excerpt carried by a judge-parsing exception, when any:
`raw[:300]` for the no-span `ValueError`, nothing for the other two. -/
def errDiag : JudgeError → Option String
  | JudgeError.noJson d => some d
  | JudgeError.decodeError => none
  | JudgeError.assertFailed => none

/-- Pure part of `judge_story` (lines 73-78): find the greedy brace span of
the raw service response, `json.loads` it, assert the three required keys,
and return the parsed dict unmodified.  `raw[:300]` slices by characters,
rendered as `List.take 300` on the character list. -/
def judge_extract (raw : String) : Except JudgeError Json :=
  match reSearchBrace raw.toList with
  | none => Except.error (JudgeError.noJson (String.mk (raw.toList.take 300)))
  | some span =>
    match jsonLoads (String.mk span) with
    | none => Except.error JudgeError.decodeError
    | some data =>
      if (hasKey data "overall_score" && hasKey data "suggestions" &&
          hasKey data "scores") = true then
        Except.ok data
      else Except.error JudgeError.assertFailed

/-- Python whitespace accepted around a `float()` string argument. -/
def isPyWs (c : Char) : Bool :=
  c = ' ' || c = '\t' || c = '\n' || c = '\r' || c = Char.ofNat 11 || c = Char.ofNat 12

/-- Drop leading Python whitespace. -/
def skipPyWs : List Char → List Char
  | [] => []
  | c :: cs => if isPyWs c then skipPyWs cs else c :: cs

/-- Strip Python whitespace from both ends. -/
def pyStrip (cs : List Char) : List Char :=
  (skipPyWs (skipPyWs cs.reverse).reverse)

/-- Mantissa of a Python float literal: digits with an optional decimal point,
at least one digit in total, on either side of the point (`"1."`, `".5"` and
`"1.5"` are all accepted, as by `float()`).  Returns the digits' value, the
number of fractional digits, and the rest of the input. -/
def parseMantissa (cs : List Char) : Option (Nat × Nat × List Char) :=
  let p := takeDigits cs
  match p.2 with
  | '.' :: r =>
    let q := takeDigits r
    if p.1.isEmpty ∧ q.1.isEmpty then none
    else some (digitsToNat 0 (p.1 ++ q.1), q.1.length, q.2)
  | _ =>
    if p.1.isEmpty then none else some (digitsToNat 0 p.1, 0, p.2)

/-- Python's `float()` on a string, for finite decimal literals: optional
surrounding whitespace, an optional sign, a mantissa and an optional decimal
exponent, the whole input consumed.  `inf`/`nan` (no rational value) and
underscore-grouped digits are outside the modelled fragment and fail here. -/
def parseFloatLit (cs : List Char) : Option Rat :=
  let t := pyStrip cs
  let sp : Bool × List Char :=
    match t with
    | '-' :: r => (true, r)
    | '+' :: r => (false, r)
    | _ => (false, t)
  match parseMantissa sp.2 with
  | none => none
  | some mp =>
    let expStep : Option (Int × List Char) :=
      match mp.2.2 with
      | 'e' :: r | 'E' :: r =>
        let esp : Int × List Char :=
          match r with
          | '+' :: r2 => (1, r2)
          | '-' :: r2 => (-1, r2)
          | _ => (1, r)
        let p := takeDigits esp.2
        if p.1.isEmpty then none
        else some (esp.1 * (digitsToNat 0 p.1 : Int), p.2)
      | _ => some (0, mp.2.2)
    match expStep with
    | none => none
    | some ep =>
      if ep.2.isEmpty then
        let sm : Int := if sp.1 then -(mp.1 : Int) else (mp.1 : Int)
        let eEff : Int := ep.1 - (mp.2.1 : Int)
        if 0 ≤ eEff then some (mkRat (sm * (10 : Int) ^ eEff.toNat) 1)
        else some (mkRat sm ((10 : Nat) ^ (-eEff).toNat))
      else none

/-- Python's `float()` on a json value: a number is itself, a bool is `1`
or `0`; `None`, lists and dicts raise `TypeError` (`none` here), and a
non-numeric string raises `ValueError`. -/
def pyFloat : Json → Option Rat
  | Json.num q => some q
  | Json.bool b => some (if b then mkRat 1 1 else mkRat 0 1)
  | Json.str s => parseFloatLit s.toList
  | _ => none

/-- The acceptance test of lines 104-105:
`score = float(result.get("overall_score", 0))` followed by
`score >= min_score and not result.get("blocking_issues")`.  `none` means the
`float()` call raised. -/
def acceptance (result : Json) (ms : Rat) : Option Bool :=
  match pyFloat (jGetD result "overall_score" (Json.num 0)) with
  | none => none
  | some score =>
    some (decide (ms ≤ score) && !(optTruthy (jGet result "blocking_issues")))

/-- The `feedback` dict that `revise_story` builds from the judge verdict and
serialises into the revision prompt (lines 81-88): `.get` of the score
(default `None`), `.get` of suggestions and blocking issues (default `[]`),
and a fixed word-count anchor of 550. -/
def revisionFeedback (judge_json : Json) : Json :=
  Json.obj
    [("overall_score", jGetD judge_json "overall_score" Json.null),
     ("suggestions", jGetD judge_json "suggestions" (Json.arr [])),
     ("blocking_issues", jGetD judge_json "blocking_issues" (Json.arr [])),
     ("keep_length_target_words", Json.num (mkRat 550 1))]

/-- One behaviour of the free-form text generation service across a run of
`generate_with_judge`: the text returned by the single drafting call, by the
k-th judge call (`k` counted from 0 in call order), and by the k-th revision
call.  Quantifying theorems over `Oracle` quantifies over every possible
sequence of service responses. -/
structure Oracle where
  draft : String
  judgeRaw : Nat → String
  revise : Nat → String

/-- Exceptions `generate_with_judge` can propagate: a judge-parsing failure
from `judge_story`, or a `float()` failure on a non-numeric score at
line 104. -/
inductive LoopError where
  | malformed : JudgeError → LoopError
  | floatError : LoopError

/-- The loop of lines 102-109, with `n` iterations of `for _ in range(1,
max_rounds + 1)` remaining and `k` judge calls already made (so the current
round is `k + 1` and this round's judge call has index `k`; the invariant
`n + k = maxR` holds at every reachable state).  When the loop body runs it
judges the current story, returns `(story, result, round)` on acceptance, and
otherwise revises and continues; when no iterations remain it performs the
final unconditional `judge_story` of line 108 and returns
`(story, final_result, max_rounds)`. -/
def gwjAux (O : Oracle) (ms : Rat) (maxR : Nat) :
    Nat → Nat → String → Except LoopError (String × Json × Nat)
  | 0, k, story =>
    match judge_extract (O.judgeRaw k) with
    | Except.error e => Except.error (LoopError.malformed e)
    | Except.ok v => Except.ok (story, v, maxR)
  | n + 1, k, story =>
    match judge_extract (O.judgeRaw k) with
    | Except.error e => Except.error (LoopError.malformed e)
    | Except.ok result =>
      match acceptance result ms with
      | none => Except.error LoopError.floatError
      | some true => Except.ok (story, result, k + 1)
      | some false => gwjAux O ms maxR n (k + 1) (O.revise k)

/-- `generate_with_judge(user_request, min_score, max_rounds)` of lines
100-109, as a function of the service behaviour: the initial story is the
drafting call's response (line 101 — this single unconditional call is the
one and only drafting call of a run), then the loop runs with `max_rounds`
iterations.  The user request only flows into prompts, which the oracle
abstracts, so it is not a parameter of the model. -/
def generate_with_judge (O : Oracle) (ms : Rat) (maxR : Nat) :
    Except LoopError (String × Json × Nat) :=
  gwjAux O ms maxR maxR 0 O.draft

/-- Number of `judge_story` service calls made from loop state `(n, k)`,
counting also a final call that raises. -/
def judgeCallsAux (O : Oracle) (ms : Rat) : Nat → Nat → Nat
  | 0, _ => 1
  | n + 1, k =>
    match judge_extract (O.judgeRaw k) with
    | Except.error _ => 1
    | Except.ok result =>
      match acceptance result ms with
      | none => 1
      | some true => 1
      | some false => 1 + judgeCallsAux O ms n (k + 1)

/-- Number of `revise_story` service calls made from loop state `(n, k)`. -/
def reviseCallsAux (O : Oracle) (ms : Rat) : Nat → Nat → Nat
  | 0, _ => 0
  | n + 1, k =>
    match judge_extract (O.judgeRaw k) with
    | Except.error _ => 0
    | Except.ok result =>
      match acceptance result ms with
      | none => 0
      | some true => 0
      | some false => 1 + reviseCallsAux O ms n (k + 1)

/-- Total number of judge (evaluation) service calls in a run of
`generate_with_judge`. -/
def judgeCallCount (O : Oracle) (ms : Rat) (maxR : Nat) : Nat :=
  judgeCallsAux O ms maxR 0

/-- Total number of revision service calls in a run of
`generate_with_judge`. -/
def reviseCallCount (O : Oracle) (ms : Rat) (maxR : Nat) : Nat :=
  reviseCallsAux O ms maxR 0

/-- The candidate under evaluation in round `r` (rounds counted from 1):
the drafting response in round 1, the response of revision call `r - 2`
afterwards. -/
def storyAt (O : Oracle) : Nat → String
  | 0 => O.draft
  | 1 => O.draft
  | r + 2 => O.revise r

/-- Round `k + 1`'s judge response parses to a verdict that fails the
acceptance test (without the `float()` call raising): the run proceeds to a
revision. -/
def roundRejects (O : Oracle) (ms : Rat) (k : Nat) : Prop :=
  ∃ v, judge_extract (O.judgeRaw k) = Except.ok v ∧ acceptance v ms = some false

/-- An input with no brace-close makes the greedy tail of the pattern fail. -/
theorem takeToLastClose_of_not_mem {l : List Char} (h : '}' ∉ l) :
    takeToLastClose l = none := by
  induction l with
  | nil => rfl
  | cons c cs ih =>
    have hc : c ≠ '}' := fun hc => h (hc ▸ List.mem_cons_self c cs)
    have hcs : '}' ∉ cs := fun hm => h (List.mem_cons_of_mem c hm)
    simp [takeToLastClose, ih hcs, hc]

/-- The greedy tail stops exactly at the last brace-close of the input. -/
theorem takeToLastClose_append (mid post : List Char) (hpost : '}' ∉ post) :
    takeToLastClose (mid ++ '}' :: post) = some (mid ++ ['}']) := by
  induction mid with
  | nil => simp [takeToLastClose, takeToLastClose_of_not_mem hpost]
  | cons c cs ih => simp [takeToLastClose, ih]

/-- Dict lookup after appending a fresh binding at the end: the new key is
found with its new value. -/
theorem lookupLast_append_last (l : List (String × Json)) (k : String) (x : Json) :
    lookupLast (l ++ [(k, x)]) k = some x := by
  induction l with
  | nil => simp [lookupLast]
  | cons p rest ih => simp [lookupLast, ih]

/-- Dict lookup after appending a binding for a different key is unchanged. -/
theorem lookupLast_append_other (l : List (String × Json)) (k k' : String)
    (x : Json) (h : k' ≠ k) :
    lookupLast (l ++ [(k, x)]) k' = lookupLast l k' := by
  induction l with
  | nil => simp [lookupLast, Ne.symm h]
  | cons p rest ih => simp [lookupLast, ih]

/-- A key bound by no pair of the list is not found. -/
theorem lookupLast_eq_none {l : List (String × Json)} {k : String}
    (h : ∀ p ∈ l, p.1 ≠ k) : lookupLast l k = none := by
  induction l with
  | nil => rfl
  | cons p rest ih =>
    have h1 : p.1 ≠ k := h p (List.mem_cons_self p rest)
    have h2 : ∀ q ∈ rest, q.1 ≠ k := fun q hq => h q (List.mem_cons_of_mem p hq)
    simp [lookupLast, ih h2, h1]

/-- A loop round whose verdict fails the acceptance test revises and
continues: this is the loop body's only other outcome, whatever the remaining
budget `n` — in particular `n = 0`, the round `r = max_rounds`, also revises. -/
theorem gwjAux_step_reject (O : Oracle) (ms : Rat) (maxR n k : Nat)
    (story : String) (v : Json)
    (hok : judge_extract (O.judgeRaw k) = Except.ok v)
    (hrej : acceptance v ms = some false) :
    gwjAux O ms maxR (n + 1) k story = gwjAux O ms maxR n (k + 1) (O.revise k) := by
  simp [gwjAux, hok, hrej]

/-- A loop round whose verdict passes the acceptance test returns at once. -/
theorem gwjAux_step_accept (O : Oracle) (ms : Rat) (maxR n k : Nat)
    (story : String) (v : Json)
    (hok : judge_extract (O.judgeRaw k) = Except.ok v)
    (hacc : acceptance v ms = some true) :
    gwjAux O ms maxR (n + 1) k story = Except.ok (story, v, k + 1) := by
  simp [gwjAux, hok, hacc]

/-- Judge-call counting across a rejecting round. -/
theorem judgeCallsAux_step_reject (O : Oracle) (ms : Rat) (n k : Nat) (v : Json)
    (hok : judge_extract (O.judgeRaw k) = Except.ok v)
    (hrej : acceptance v ms = some false) :
    judgeCallsAux O ms (n + 1) k = 1 + judgeCallsAux O ms n (k + 1) := by
  simp [judgeCallsAux, hok, hrej]

/-- Revise-call counting across a rejecting round. -/
theorem reviseCallsAux_step_reject (O : Oracle) (ms : Rat) (n k : Nat) (v : Json)
    (hok : judge_extract (O.judgeRaw k) = Except.ok v)
    (hrej : acceptance v ms = some false) :
    reviseCallsAux O ms (n + 1) k = 1 + reviseCallsAux O ms n (k + 1) := by
  simp [reviseCallsAux, hok, hrej]

/-- Call counting in an accepting round: this round's judge call and nothing
else. -/
theorem callsAux_step_accept (O : Oracle) (ms : Rat) (n k : Nat) (v : Json)
    (hok : judge_extract (O.judgeRaw k) = Except.ok v)
    (hacc : acceptance v ms = some true) :
    judgeCallsAux O ms (n + 1) k = 1 ∧ reviseCallsAux O ms (n + 1) k = 0 := by
  constructor
  · simp [judgeCallsAux, hok, hacc]
  · simp [reviseCallsAux, hok, hacc]

/-- Every run makes exactly one more judge call than revise calls: each loop
iteration makes one of each or returns after its judge call, and the
post-loop evaluation is one extra judge call. -/
theorem judgeCallsAux_eq_reviseCallsAux_succ (O : Oracle) (ms : Rat) :
    ∀ n k, judgeCallsAux O ms n k = reviseCallsAux O ms n k + 1 := by
  intro n
  induction n with
  | zero => intro k; rfl
  | succ m ih =>
    intro k
    cases hj : judge_extract (O.judgeRaw k) with
    | error e => simp [judgeCallsAux, reviseCallsAux, hj]
    | ok v =>
      cases ha : acceptance v ms with
      | none => simp [judgeCallsAux, reviseCallsAux, hj, ha]
      | some b =>
        cases b with
        | true => simp [judgeCallsAux, reviseCallsAux, hj, ha]
        | false =>
          simp [judgeCallsAux, reviseCallsAux, hj, ha, ih (k + 1)]
          omega

/-- The loop budget bounds the number of revise calls. -/
theorem reviseCallsAux_le (O : Oracle) (ms : Rat) :
    ∀ n k, reviseCallsAux O ms n k ≤ n := by
  intro n
  induction n with
  | zero => intro k; exact Nat.le_refl 0
  | succ m ih =>
    intro k
    cases hj : judge_extract (O.judgeRaw k) with
    | error e => simp [reviseCallsAux, hj]
    | ok v =>
      cases ha : acceptance v ms with
      | none => simp [reviseCallsAux, hj, ha]
      | some b =>
        cases b with
        | true => simp [reviseCallsAux, hj, ha]
        | false =>
          have := ih (k + 1)
          simp [reviseCallsAux, hj, ha]
          omega

/-- A run whose every loop round rejects: the loop performs all `n` rounds,
each with one judge call and one revise call, and ends with the unconditional
final evaluation (judge call `k + n`) of the story produced by the last
revise call, returned with round count `maxR`. -/
theorem gwjAux_all_reject (O : Oracle) (ms : Rat) (maxR : Nat) :
    ∀ (n k : Nat) (story : String),
      (∀ i, i < n → roundRejects O ms (k + i)) →
      gwjAux O ms maxR n k story =
        (match judge_extract (O.judgeRaw (k + n)) with
         | Except.error e => Except.error (LoopError.malformed e)
         | Except.ok v =>
             Except.ok ((if n = 0 then story else O.revise (k + n - 1)), v, maxR)) ∧
      judgeCallsAux O ms n k = n + 1 ∧ reviseCallsAux O ms n k = n := by
  intro n
  induction n with
  | zero =>
    intro k story _
    refine ⟨?_, rfl, rfl⟩
    simp [gwjAux]
  | succ m ih =>
    intro k story h
    obtain ⟨v, hok, hrej⟩ := by
      have := h 0 (Nat.succ_pos m)
      rwa [Nat.add_zero] at this
    have hrest : ∀ i, i < m → roundRejects O ms (k + 1 + i) := by
      intro i hi
      have := h (i + 1) (by omega)
      have harith : k + (i + 1) = k + 1 + i := by omega
      rwa [harith] at this
    obtain ⟨hrun, hjc, hrc⟩ := ih (k + 1) (O.revise k) hrest
    refine ⟨?_, ?_, ?_⟩
    · rw [gwjAux_step_reject O ms maxR m k story v hok hrej, hrun]
      have harith : k + 1 + m = k + (m + 1) := by omega
      rw [harith]
      cases m with
      | zero => simp
      | succ p =>
        have h2 : k + 1 + (p + 1) - 1 = k + (p + 1 + 1) - 1 := by omega
        simp [h2]
    · rw [judgeCallsAux_step_reject O ms m k v hok hrej, hjc]; omega
    · rw [reviseCallsAux_step_reject O ms m k v hok hrej, hrc]; omega

/-- A run that rejects for `d` rounds and accepts in round `d + 1` (with
`d < n`, so the accepting round is within budget): the loop returns the
story current in the accepting round — the draft if `d = 0`, the response of
revise call `d - 1` otherwise — with that round's verdict and round number,
after `d + 1` judge calls and `d` revise calls. -/
theorem gwjAux_accept_run (O : Oracle) (ms : Rat) (maxR : Nat) :
    ∀ (d n k : Nat) (story : String) (v : Json),
      d < n →
      (∀ i, i < d → roundRejects O ms (k + i)) →
      judge_extract (O.judgeRaw (k + d)) = Except.ok v →
      acceptance v ms = some true →
      gwjAux O ms maxR n k story =
        Except.ok ((if d = 0 then story else O.revise (k + d - 1)), v, k + d + 1) ∧
      judgeCallsAux O ms n k = d + 1 ∧ reviseCallsAux O ms n k = d := by
  intro d
  induction d with
  | zero =>
    intro n k story v hdn _ hok hacc
    obtain ⟨m, rfl⟩ : ∃ m, n = m + 1 := ⟨n - 1, by omega⟩
    rw [Nat.add_zero] at hok
    obtain ⟨hj, hr⟩ := callsAux_step_accept O ms m k v hok hacc
    exact ⟨by simpa using gwjAux_step_accept O ms maxR m k story v hok hacc,
      hj, hr⟩
  | succ d ih =>
    intro n k story v hdn hrejs hok hacc
    obtain ⟨m, rfl⟩ : ∃ m, n = m + 1 := ⟨n - 1, by omega⟩
    obtain ⟨w, hwok, hwrej⟩ := by
      have := hrejs 0 (Nat.succ_pos d)
      rwa [Nat.add_zero] at this
    have hrest : ∀ i, i < d → roundRejects O ms (k + 1 + i) := by
      intro i hi
      have := hrejs (i + 1) (by omega)
      have harith : k + (i + 1) = k + 1 + i := by omega
      rwa [harith] at this
    have hok' : judge_extract (O.judgeRaw (k + 1 + d)) = Except.ok v := by
      have harith : k + (d + 1) = k + 1 + d := by omega
      rwa [harith] at hok
    obtain ⟨hrun, hjc, hrc⟩ :=
      ih m (k + 1) (O.revise k) v (by omega) hrest hok' hacc
    refine ⟨?_, ?_, ?_⟩
    · rw [gwjAux_step_reject O ms maxR m k story w hwok hwrej, hrun]
      have hround : k + 1 + d + 1 = k + (d + 1) + 1 := by omega
      rw [hround]
      cases d with
      | zero => simp
      | succ p =>
        have h2 : k + 1 + (p + 1) - 1 = k + (p + 1 + 1) - 1 := by omega
        simp [h2]
    · rw [judgeCallsAux_step_reject O ms m k w hwok hwrej, hjc]; omega
    · rw [reviseCallsAux_step_reject O ms m k w hwok hwrej, hrc]; omega

/-- A service behaviour whose judge always answers with a verdict of score 5
(below the default threshold of 8.5), hence never passing: the worst case of
the loop.  Revision call `k` answers with the text `R` followed by `k`. -/
def Orej : Oracle :=
  { draft := "D"
    judgeRaw := fun _ =>
      "\x7b\"overall_score\":5,\"suggestions\":[],\"scores\":\x7b\x7d\x7d"
    revise := fun k => String.mk ('R' :: (Nat.toDigits 10 k)) }

/-- The verdict dict `Orej`'s judge responses parse to. -/
def vdLow : Json :=
  Json.obj [("overall_score", Json.num (mkRat 5 1)),
    ("suggestions", Json.arr []), ("scores", Json.obj [])]

/-- A service behaviour whose judge always answers with a passing verdict of
score 9 and no blocking issues. -/
def Oacc : Oracle :=
  { draft := "D"
    judgeRaw := fun _ =>
      "\x7b\"overall_score\":9,\"suggestions\":[],\"scores\":\x7b\x7d\x7d"
    revise := fun k => String.mk ('R' :: (Nat.toDigits 10 k)) }

/-- The verdict dict `Oacc`'s judge responses parse to. -/
def vdGood : Json :=
  Json.obj [("overall_score", Json.num (mkRat 9 1)),
    ("suggestions", Json.arr []), ("scores", Json.obj [])]

/-- C1: in any round `r` of the loop (`1 ≤ r ≤ max_rounds`) that the run
reaches (every earlier round's verdict failed the acceptance test), if round
`r`'s verdict has `overall_score ≥ min_score` and falsy — empty or absent —
`blocking_issues` (`acceptance v ms = some true` is exactly the test of line
105 passing), then `generate_with_judge` returns `(current candidate, that
verdict, r)` immediately: the run makes exactly `r` evaluation calls and
`r - 1` revision calls, so no revision follows the accepting evaluation. -/
theorem c1_accepting_round_terminates (O : Oracle) (ms : Rat) (maxR r : Nat)
    (v : Json) (h1 : 1 ≤ r) (h2 : r ≤ maxR)
    (hprev : ∀ k, k < r - 1 → roundRejects O ms k)
    (hok : judge_extract (O.judgeRaw (r - 1)) = Except.ok v)
    (hacc : acceptance v ms = some true) :
    generate_with_judge O ms maxR = Except.ok (storyAt O r, v, r) ∧
    judgeCallCount O ms maxR = r ∧ reviseCallCount O ms maxR = r - 1 := by
  obtain ⟨hrun, hjc, hrc⟩ :=
    gwjAux_accept_run O ms maxR (r - 1) maxR 0 O.draft v (by omega)
      (by intro i hi; simpa using hprev i hi) (by simpa using hok) hacc
  refine ⟨?_, ?_, ?_⟩
  · unfold generate_with_judge
    rw [hrun]
    have hstory : (if r - 1 = 0 then O.draft else O.revise (0 + (r - 1) - 1)) =
        storyAt O r := by
      cases r with
      | zero => exact absurd h1 (by omega)
      | succ q =>
        cases q with
        | zero => simp [storyAt]
        | succ p => simp [storyAt, Nat.succ_sub_one]
    rw [hstory]
    have hround : 0 + (r - 1) + 1 = r := by omega
    rw [hround]
  · unfold judgeCallCount
    rw [hjc]; omega
  · unfold reviseCallCount
    rw [hrc]

/-- C1 witness: under `Oacc` with threshold `17/2` and `max_rounds = 3`, the
round-1 verdict passes and the run returns the draft with round count 1 after
one evaluation and no revision. -/
theorem c1_witness :
    generate_with_judge Oacc (mkRat 17 2) 3 = Except.ok ("D", vdGood, 1) ∧
    judgeCallCount Oacc (mkRat 17 2) 3 = 1 ∧
    reviseCallCount Oacc (mkRat 17 2) 3 = 0 :=
  c1_accepting_round_terminates Oacc (mkRat 17 2) 3 1 vdGood (Nat.le_refl 1)
    (by omega) (fun k hk => absurd hk (by omega)) rfl rfl

/-- C2 counterexample: with the never-passing behaviour `Orej` and
`max_rounds = 1`, the sole round is the final round `r = max_rounds`, its
acceptance check fails, and the code still makes a revision call — one
revision is counted and the returned candidate is the revision response
`R0`, not the draft `D` — where the claim says a failed check in the final
round triggers no revision. -/
theorem c2_counterexample :
    generate_with_judge Orej (mkRat 17 2) 1 = Except.ok ("R0", vdLow, 1) ∧
    reviseCallCount Orej (mkRat 17 2) 1 = 1 :=
  ⟨rfl, rfl⟩

/-- C2 (amended): in every round in which the acceptance check fails, a
revision call is made — unconditionally, whether or not further loop rounds
remain.  With `n` further iterations budgeted (including `n = 0`, the round
`r = max_rounds`), a rejecting round at judge call `k` hands the revision
response to the rest of the run and counts one revision. -/
theorem c2_failed_check_revises_every_round (O : Oracle) (ms : Rat)
    (maxR n k : Nat) (story : String) (v : Json)
    (hok : judge_extract (O.judgeRaw k) = Except.ok v)
    (hrej : acceptance v ms = some false) :
    gwjAux O ms maxR (n + 1) k story = gwjAux O ms maxR n (k + 1) (O.revise k) ∧
    reviseCallsAux O ms (n + 1) k = 1 + reviseCallsAux O ms n (k + 1) :=
  ⟨gwjAux_step_reject O ms maxR n k story v hok hrej,
   reviseCallsAux_step_reject O ms n k v hok hrej⟩

/-- C2 witness: the amended statement at the final round of `Orej` with
`max_rounds = 1` (state `n = 0`, `k = 0`): the failed check revises. -/
theorem c2_witness :
    gwjAux Orej (mkRat 17 2) 1 1 0 "D" =
      gwjAux Orej (mkRat 17 2) 1 0 1 (Orej.revise 0) ∧
    reviseCallsAux Orej (mkRat 17 2) 1 0 =
      1 + reviseCallsAux Orej (mkRat 17 2) 0 1 :=
  c2_failed_check_revises_every_round Orej (mkRat 17 2) 1 0 0 "D" vdLow rfl rfl

/-- C3: for every `max_rounds` and every service behaviour the run
terminates (the model is a total function of the behaviour), makes one more
evaluation call than revision calls, at most `max_rounds` revision calls and
at most `max_rounds + 1` evaluation calls; when no round's verdict passes the
acceptance check it makes exactly `max_rounds` revision calls and
`max_rounds + 1` evaluation calls. -/
theorem c3_call_counts (O : Oracle) (ms : Rat) (maxR : Nat) :
    judgeCallCount O ms maxR = reviseCallCount O ms maxR + 1 ∧
    reviseCallCount O ms maxR ≤ maxR ∧
    judgeCallCount O ms maxR ≤ maxR + 1 ∧
    ((∀ k, k < maxR → roundRejects O ms k) →
      judgeCallCount O ms maxR = maxR + 1 ∧ reviseCallCount O ms maxR = maxR) := by
  have h1 := judgeCallsAux_eq_reviseCallsAux_succ O ms maxR 0
  have h2 := reviseCallsAux_le O ms maxR 0
  unfold judgeCallCount reviseCallCount
  refine ⟨h1, h2, by omega, ?_⟩
  intro h
  obtain ⟨_, hjc, hrc⟩ := gwjAux_all_reject O ms maxR maxR 0 O.draft
    (by intro i hi; simpa using h i hi)
  exact ⟨hjc, hrc⟩

/-- C3 witness: the never-passing behaviour `Orej` with `max_rounds = 2`
makes exactly 3 evaluation calls and 2 revision calls. -/
theorem c3_witness :
    judgeCallCount Orej (mkRat 17 2) 2 = 3 ∧
    reviseCallCount Orej (mkRat 17 2) 2 = 2 :=
  (c3_call_counts Orej (mkRat 17 2) 2).2.2.2 (fun _ _ => ⟨vdLow, rfl, rfl⟩)

/-- C4: when no loop round's verdict passes the acceptance check within
`max_rounds ≥ 1` rounds, the code performs one additional, unconditional
evaluation (judge call index `max_rounds`, the `max_rounds + 1`-st call) of
the last candidate — the response of the final round's revision call — and
returns `(last candidate, that fresh verdict, max_rounds)` as a normal
result, not an exception. -/
theorem c4_exhaustion_final_eval (O : Oracle) (ms : Rat) (maxR : Nat)
    (v : Json) (h1 : 1 ≤ maxR)
    (hrej : ∀ k, k < maxR → roundRejects O ms k)
    (hfin : judge_extract (O.judgeRaw maxR) = Except.ok v) :
    generate_with_judge O ms maxR = Except.ok (O.revise (maxR - 1), v, maxR) ∧
    judgeCallCount O ms maxR = maxR + 1 ∧ reviseCallCount O ms maxR = maxR := by
  obtain ⟨hrun, hjc, hrc⟩ := gwjAux_all_reject O ms maxR maxR 0 O.draft
    (by intro i hi; simpa using hrej i hi)
  refine ⟨?_, hjc, hrc⟩
  unfold generate_with_judge
  rw [hrun]
  have h0 : (0 : Nat) + maxR = maxR := by omega
  rw [h0, hfin]
  have hm0 : maxR ≠ 0 := by omega
  simp [hm0]

/-- C4 witness: `Orej` with `max_rounds = 1`: the round-1 verdict fails, the
revision `R0` is evaluated once more, and `(R0, verdict, 1)` is returned
after 2 evaluations and 1 revision. -/
theorem c4_witness :
    generate_with_judge Orej (mkRat 17 2) 1 = Except.ok ("R0", vdLow, 1) ∧
    judgeCallCount Orej (mkRat 17 2) 1 = 2 ∧
    reviseCallCount Orej (mkRat 17 2) 1 = 1 :=
  c4_exhaustion_final_eval Orej (mkRat 17 2) 1 vdLow (Nat.le_refl 1)
    (fun _ _ => ⟨vdLow, rfl, rfl⟩) rfl

/-- C9: with `max_rounds = 0` the loop body never runs (`range(1, 1)` is
empty): the single drafting call's response is evaluated exactly once by the
unconditional post-loop `judge_story` — the acceptance check is never
consulted, whatever that verdict is — no revision call is made, and
`(initial candidate, that verdict, 0)` is returned through the exhaustion
path (round count `max_rounds = 0`). -/
theorem c9_zero_rounds (O : Oracle) (ms : Rat) :
    generate_with_judge O ms 0 =
      (match judge_extract (O.judgeRaw 0) with
       | Except.error e => Except.error (LoopError.malformed e)
       | Except.ok v => Except.ok (O.draft, v, 0)) ∧
    judgeCallCount O ms 0 = 1 ∧ reviseCallCount O ms 0 = 0 :=
  ⟨rfl, rfl, rfl⟩

/-- The spec's prose-wrapped judge response: a valid verdict object
surrounded by text on both sides. -/
def exWrapped : String :=
  "Here you go:\n\x7b\"overall_score\":9,\"suggestions\":[],\"scores\":\x7b\x7d\x7d\nThanks!"

/-- A bare verdict object with the three required keys and neither optional
key. -/
def exPlain : String :=
  "\x7b\"overall_score\":9,\"suggestions\":[],\"scores\":\x7b\x7d\x7d"

/-- A verdict object carrying an extra key beyond the required three. -/
def exExtra : String :=
  "\x7b\"overall_score\":9,\"suggestions\":[],\"scores\":\x7b\x7d,\"extra\":true\x7d"

/-- The dict `exExtra` parses to, extra key included. -/
def vdExtra : Json :=
  Json.obj [("overall_score", Json.num (mkRat 9 1)),
    ("suggestions", Json.arr []), ("scores", Json.obj []),
    ("extra", Json.bool true)]

/-- C5: the evaluation stage matches exactly the greedy span from the first
brace-open to the last brace-close, ignoring all surrounding text.  Any raw
response with a brace-open followed later by a brace-close decomposes as
`pre ++ brace-open ++ mid ++ brace-close ++ post` with no brace-open in `pre`
(the opening brace is the first) and no brace-close in `post` (the closing
brace is the last), and on every such decomposition the match is exactly the
middle span.  In particular the spec's prose-wrapped response parses
successfully to a verdict with `overall_score = 9`. -/
theorem c5_greedy_span_prose_tolerant :
    (∀ (pre mid post : List Char), '{' ∉ pre → '}' ∉ post →
      reSearchBrace (pre ++ '{' :: (mid ++ '}' :: post)) =
        some ('{' :: (mid ++ ['}']))) ∧
    (∃ j, judge_extract exWrapped = Except.ok j ∧
      jGet j "overall_score" = some (Json.num (mkRat 9 1))) := by
  constructor
  · intro pre mid post hpre hpost
    induction pre with
    | nil => simp [reSearchBrace, takeToLastClose_append mid post hpost]
    | cons c cs ih =>
      have hc : c ≠ '{' := fun hc => hpre (hc ▸ List.mem_cons_self c cs)
      have hcs : '{' ∉ cs := fun hm => hpre (List.mem_cons_of_mem c hm)
      simp [reSearchBrace, hc, ih hcs]
  · exact ⟨vdGood, rfl, rfl⟩

/-- C5 witness: the span equation applied to the one-character surroundings
`a` and `y` around the span. -/
theorem c5_witness :
    reSearchBrace (['a'] ++ '{' :: (['x'] ++ '}' :: ['y'])) =
      some ('{' :: (['x'] ++ ['}'])) :=
  c5_greedy_span_prose_tolerant.1 ['a'] ['x'] ['y'] (by decide) (by decide)

/-- C6 counterexample: the raw response `{nope}` has a brace span that is not
JSON, so the evaluation stage fails — but through `json.JSONDecodeError`
(line 76), which carries no excerpt of the raw response, contradicting the
claim that every parsing failure carries the first ~300 characters of the
raw response.  Only the no-span `ValueError` of line 75 embeds
`raw[:300]`. -/
theorem c6_counterexample :
    judge_extract "\x7bnope\x7d" = Except.error JudgeError.decodeError ∧
    errDiag JudgeError.decodeError = none :=
  ⟨rfl, rfl⟩

/-- C6 (amended): the evaluation stage fails, returning no verdict, exactly
when the raw response has no brace span, or the span is not valid JSON, or
the parsed object lacks one of the keys `overall_score`, `suggestions`,
`scores`; the no-span failure — and only it — carries the first 300
characters of the raw response. -/
theorem c6_failure_conditions (raw : String) :
    ((∃ e, judge_extract raw = Except.error e) ↔
      (reSearchBrace raw.toList = none ∨
       (∃ span, reSearchBrace raw.toList = some span ∧
         jsonLoads (String.mk span) = none) ∨
       (∃ span j, reSearchBrace raw.toList = some span ∧
         jsonLoads (String.mk span) = some j ∧
         (hasKey j "overall_score" && hasKey j "suggestions" &&
           hasKey j "scores") = false))) ∧
    (reSearchBrace raw.toList = none →
      judge_extract raw =
        Except.error (JudgeError.noJson (String.mk (raw.toList.take 300)))) ∧
    (∀ e, judge_extract raw = Except.error e →
      (errDiag e = some (String.mk (raw.toList.take 300)) ↔
        reSearchBrace raw.toList = none)) := by
  simp only [String.toList]
  cases hs : reSearchBrace raw.data with
  | none =>
    have hje : judge_extract raw =
        Except.error (JudgeError.noJson (String.mk (List.take 300 raw.data))) := by
      unfold judge_extract
      simp only [String.toList]
      simp only [hs]
    refine ⟨⟨fun _ => Or.inl rfl, fun _ => ⟨_, hje⟩⟩, fun _ => hje, ?_⟩
    intro e he
    rw [hje] at he
    injection he with h
    subst h
    simp [errDiag]
  | some span =>
    cases hl : jsonLoads (String.mk span) with
    | none =>
      have hje : judge_extract raw = Except.error JudgeError.decodeError := by
        unfold judge_extract
        simp only [String.toList]
        simp only [hs, hl]
      refine ⟨⟨fun _ => Or.inr (Or.inl ⟨span, rfl, hl⟩), fun _ => ⟨_, hje⟩⟩,
        fun h => by simp at h, ?_⟩
      intro e he
      rw [hje] at he
      injection he with h
      subst h
      simp [errDiag]
    | some data =>
      cases hk : (hasKey data "overall_score" && hasKey data "suggestions" &&
          hasKey data "scores") with
      | true =>
        have hje : judge_extract raw = Except.ok data := by
          unfold judge_extract
          simp only [String.toList]
          simp only [hs, hl, hk]
          simp
        refine ⟨⟨?_, ?_⟩, fun h => by simp at h, ?_⟩
        · intro ⟨e, he⟩
          rw [hje] at he
          exact absurd he (by simp)
        · intro h
          rcases h with h | ⟨sp, hsp, hlo⟩ | ⟨sp, j, hsp, hlo, hkk⟩
          · exact absurd h (by simp)
          · injection hsp with h2
            subst h2
            rw [hl] at hlo
            exact absurd hlo (by simp)
          · injection hsp with h2
            subst h2
            rw [hl] at hlo
            injection hlo with h3
            subst h3
            rw [hk] at hkk
            exact absurd hkk (by simp)
        · intro e he
          rw [hje] at he
          exact absurd he (by simp)
      | false =>
        have hje : judge_extract raw = Except.error JudgeError.assertFailed := by
          unfold judge_extract
          simp only [String.toList]
          simp only [hs, hl, hk]
          simp
        refine ⟨⟨fun _ => Or.inr (Or.inr ⟨span, data, rfl, hl, hk⟩),
          fun _ => ⟨_, hje⟩⟩, fun h => by simp at h, ?_⟩
        intro e he
        rw [hje] at he
        injection he with h
        subst h
        simp [errDiag]

/-- C6 witness: the amended statement applied to a braceless raw response:
the failure is the no-span `ValueError` and it carries the raw prefix. -/
theorem c6_witness :
    judge_extract "no json at all" =
      Except.error (JudgeError.noJson
        (String.mk ("no json at all".toList.take 300))) ∧
    (errDiag (JudgeError.noJson (String.mk ("no json at all".toList.take 300))) =
        some (String.mk ("no json at all".toList.take 300)) ↔
      reSearchBrace "no json at all".toList = none) :=
  ⟨(c6_failure_conditions "no json at all").2.1 rfl,
   (c6_failure_conditions "no json at all").2.2 _
     ((c6_failure_conditions "no json at all").2.1 rfl)⟩

/-- C7: a response whose verdict object lacks the optional keys
`blocking_issues` and `length_words` evaluates successfully — no fault — and
at both places where `blocking_issues` is consumed, the controller's
acceptance check (line 105, `.get` defaulting to falsy `None`) and the
revision stage's feedback dict (line 85, `.get` defaulting to `[]`), a dict
without the key behaves exactly as the same dict with an explicit empty
`blocking_issues` list.  (`length_words` is consumed nowhere, so its absence
can affect nothing.) -/
theorem c7_missing_optional_fields :
    (∃ j, judge_extract exPlain = Except.ok j ∧
      jGet j "blocking_issues" = none ∧ jGet j "length_words" = none) ∧
    (∀ (d : List (String × Json)) (ms : Rat),
      hasKey (Json.obj d) "blocking_issues" = false →
      acceptance (Json.obj d) ms =
        acceptance (Json.obj (d ++ [("blocking_issues", Json.arr [])])) ms ∧
      revisionFeedback (Json.obj d) =
        revisionFeedback (Json.obj (d ++ [("blocking_issues", Json.arr [])]))) := by
  constructor
  · exact ⟨vdGood, rfl, rfl, rfl⟩
  · intro d ms hk
    have hnone : lookupLast d "blocking_issues" = none := by
      apply lookupLast_eq_none
      intro p hp
      simp [hasKey, List.any_eq_false] at hk
      exact hk p.1 p.2 hp
    have hos : ∀ k' : String, k' ≠ "blocking_issues" →
        jGet (Json.obj (d ++ [("blocking_issues", Json.arr [])])) k' =
          jGet (Json.obj d) k' := by
      intro k' hne
      simp [jGet, lookupLast_append_other d "blocking_issues" k' (Json.arr []) hne]
    constructor
    · have e1 : jGetD (Json.obj (d ++ [("blocking_issues", Json.arr [])]))
          "overall_score" (Json.num 0) =
          jGetD (Json.obj d) "overall_score" (Json.num 0) := by
        unfold jGetD
        rw [hos "overall_score" (by decide)]
      have e2 : optTruthy (jGet (Json.obj d) "blocking_issues") = false := by
        simp [jGet, hnone, optTruthy]
      have e3 : optTruthy (jGet (Json.obj (d ++ [("blocking_issues", Json.arr [])]))
          "blocking_issues") = false := by
        simp [jGet, lookupLast_append_last, optTruthy, pyTruthy]
      unfold acceptance
      rw [e1, e2, e3]
    · unfold revisionFeedback jGetD
      rw [hos "overall_score" (by decide), hos "suggestions" (by decide)]
      simp [jGet, hnone, lookupLast_append_last]

/-- C7 witness: the treatment equality applied to the one-key dict
`overall_score: 9` with threshold `17/2`. -/
theorem c7_witness :
    acceptance (Json.obj [("overall_score", Json.num (mkRat 9 1))]) (mkRat 17 2) =
      acceptance (Json.obj ([("overall_score", Json.num (mkRat 9 1))] ++
        [("blocking_issues", Json.arr [])])) (mkRat 17 2) ∧
    revisionFeedback (Json.obj [("overall_score", Json.num (mkRat 9 1))]) =
      revisionFeedback (Json.obj ([("overall_score", Json.num (mkRat 9 1))] ++
        [("blocking_issues", Json.arr [])])) :=
  c7_missing_optional_fields.2 [("overall_score", Json.num (mkRat 9 1))]
    (mkRat 17 2) rfl

/-- C8: verdict extraction is a pure function of the raw response text — it
re-reads no ambient state — so extracting twice from the same well-formed
text yields structurally identical verdicts. -/
theorem c8_extraction_deterministic (raw : String) (v w : Json)
    (h1 : judge_extract raw = Except.ok v)
    (h2 : judge_extract raw = Except.ok w) : v = w := by
  rw [h1] at h2
  injection h2

/-- C8 witness: two extractions from the bare verdict response agree. -/
theorem c8_witness :
    judge_extract exPlain = Except.ok vdGood ∧ vdGood = vdGood :=
  ⟨rfl, c8_extraction_deterministic exPlain vdGood vdGood rfl rfl⟩

/-- C10: a successful evaluation returns the parsed JSON object of the
extracted span verbatim — the returned dict is exactly `json.loads` of the
matched span, with no key added, removed, renamed or defaulted — and in
particular an extra key in the service's JSON survives in the returned
verdict while absent optional keys stay absent. -/
theorem c10_verbatim_result :
    (∀ (raw : String) (j : Json), judge_extract raw = Except.ok j →
      ∃ span, reSearchBrace raw.toList = some span ∧
        jsonLoads (String.mk span) = some j) ∧
    (∃ j, judge_extract exExtra = Except.ok j ∧
      jGet j "extra" = some (Json.bool true) ∧
      hasKey j "blocking_issues" = false ∧ hasKey j "length_words" = false) := by
  constructor
  · intro raw j h
    unfold judge_extract at h
    simp only [String.toList] at h ⊢
    cases hs : reSearchBrace raw.data with
    | none =>
      simp only [hs] at h
      exact absurd h (by simp)
    | some span =>
      simp only [hs] at h
      cases hl : jsonLoads (String.mk span) with
      | none =>
        simp only [hl] at h
        exact absurd h (by simp)
      | some data =>
        simp only [hl] at h
        cases hk : (hasKey data "overall_score" && hasKey data "suggestions" &&
            hasKey data "scores") with
        | true =>
          simp only [hk] at h
          simp at h
          exact ⟨span, rfl, by rw [hl, h]⟩
        | false =>
          simp only [hk] at h
          exact absurd h (by simp)
  · exact ⟨vdExtra, rfl, rfl, rfl, rfl⟩

/-- C10 witness: the verbatim equation applied to the extra-key response. -/
theorem c10_witness :
    ∃ span, reSearchBrace exExtra.toList = some span ∧
      jsonLoads (String.mk span) = some vdExtra :=
  c10_verbatim_result.1 exExtra vdExtra rfl
